import Mathlib

/-!
Verification of the telnet-generator repository core against its
specification.  The development shallowly embeds, from the TypeScript
source, the EventResolver queue (src/src/event-resolver.ts), the two
generations of the TelnetConnection command framer (src/src/connection.ts
and the AsyncQueue-based variant in src/src/index.ts), the connection and
server lifecycle loops, and the send helpers.  JavaScript arrays become
Lean lists, out-of-bounds indexing becomes List.get?, and promise
resolution becomes an explicit delivery log.
-/

namespace TelnetGen

/-! ### Telnet command constants (src/src/command.ts) -/

def IAC : Nat := 255
def SB : Nat := 250
def SE : Nat := 240
def DO : Nat := 253
def ECHO : Nat := 1

/-! ### EventResolver (src/src/event-resolver.ts)

State of one EventResolver instance.  `eventList` and `resolveList`
mirror the two private arrays; a waiting consumer (a stored Promise
resolve function) is represented by the numeric id of the `next()` call
that registered it, `nextId` numbers the `next()` calls in call order,
and `log` records every promise resolution as (consumer id, value), in
resolution order. -/

structure ResolverState (α : Type) where
  eventList : List α
  resolveList : List Nat
  nextId : Nat
  log : List (Nat × α)
deriving DecidableEq

def initResolver (α : Type) : ResolverState α := ⟨[], [], 0, []⟩

/-- `add(event)`: if `resolveList.length > 0`, shift the oldest resolve
function and call it with the event (a shifted function is always truthy,
so the `if (resolve)` guard always passes); otherwise push the event onto
`eventList`. -/
def resolverAdd {α : Type} (e : α) (s : ResolverState α) : ResolverState α :=
  match s.resolveList with
  | r :: rest => { s with resolveList := rest, log := s.log ++ [(r, e)] }
  | [] => { s with eventList := s.eventList ++ [e] }

/-- `next()`: shift the head of `eventList` unconditionally; the shifted
value is then tested with JavaScript truthiness (`if (event)`).  A truthy
value resolves the new promise immediately; otherwise (empty list, or a
falsy value such as the empty string) the resolve function is pushed onto
`resolveList`.  `truthy` is the truthiness predicate of the element type. -/
def resolverNext {α : Type} (truthy : α → Bool) (s : ResolverState α) :
    ResolverState α :=
  let c := s.nextId
  match s.eventList with
  | e :: rest =>
    if truthy e then
      { s with eventList := rest, nextId := c + 1, log := s.log ++ [(c, e)] }
    else
      { s with eventList := rest, nextId := c + 1,
               resolveList := s.resolveList ++ [c] }
  | [] => { s with nextId := c + 1, resolveList := s.resolveList ++ [c] }

/-- JavaScript truthiness of a string: every string except `""` is truthy. -/
def jsStringTruthy (s : String) : Bool := !s.isEmpty

/-- C1: The claim asserts that for any interleaving of add and next over
any element type, every added event is delivered to exactly one next()
call, in order.  The code violates this: `next()` shifts the head of the
event list and then tests it with JavaScript truthiness, so a falsy
event (here the empty string, a legal value of `EventResolver<string>`)
is removed from the queue and silently dropped, and the `next()` call
that consumed it stays pending until a later `add`.  Running
add(""), next(), add("x") delivers "x" to the first next() call
(consumer id 0) and never delivers "" to anyone: the final log is
[(0, "x")] although two events were added.  This contradicts the
documentation comment of EventResolver itself, which promises that a
shifted value is used to resolve the promise. -/
theorem c1_falsy_event_dropped :
    (resolverAdd "x" (resolverNext jsStringTruthy
        (resolverAdd "" (initResolver String)))).log = [(0, "x")] ∧
    (resolverAdd "x" (resolverNext jsStringTruthy
        (resolverAdd "" (initResolver String)))).eventList = [] ∧
    (resolverAdd "x" (resolverNext jsStringTruthy
        (resolverAdd "" (initResolver String)))).resolveList = [] := by
  decide

/-! ### Command framer

Two generations of `TelnetConnection.handleTelnetCommand` live in the
repository: the EventResolver-based one in src/src/connection.ts
(functions suffixed `Conn` below) and the AsyncQueue-based one in
src/src/index.ts (suffixed `Idx`).  They differ in whether the
subnegotiation terminator SE is pushed into the command and in how far
the returned cursor has advanced after a simple command.  JavaScript
`data[i]` on an out-of-bounds index yields `undefined`, which compares
unequal to every number; this is `List.get?` returning `none`.  In-bounds
reads use `List.getD` (the default is never consulted under the guard). -/

inductive FramerEvent where
  | command (bytes : List Nat)
  | data (payload : List Nat)
deriving DecidableEq

/-- The connection.ts SB loop: `while (position < data.length) {
telnetCommand.push(data[position++]); if (data[position] === Command.SE)
break; }` — on break the SE byte is NOT pushed and `position` is left
pointing at the SE byte. -/
def sbLoopConn (d : List Nat) (pos : Nat) (acc : List Nat) : List Nat × Nat :=
  if pos < d.length then
    if d.get? (pos + 1) = some SE then (acc ++ [d.getD pos 0], pos + 1)
    else sbLoopConn d (pos + 1) (acc ++ [d.getD pos 0])
  else (acc, pos)
termination_by d.length - pos
decreasing_by omega

/-- The index.ts SB loop: identical except that on break the SE byte is
also pushed (`telnetCommand.push(data[position]);`) before breaking, with
`position` still pointing at the SE byte. -/
def sbLoopIdx (d : List Nat) (pos : Nat) (acc : List Nat) : List Nat × Nat :=
  if pos < d.length then
    if d.get? (pos + 1) = some SE then
      (acc ++ [d.getD pos 0, d.getD (pos + 1) 0], pos + 1)
    else sbLoopIdx d (pos + 1) (acc ++ [d.getD pos 0])
  else (acc, pos)
termination_by d.length - pos
decreasing_by omega

theorem sbLoopConn_pos_ge (d : List Nat) :
    ∀ n pos acc, d.length - pos ≤ n → pos ≤ (sbLoopConn d pos acc).2 := by
  intro n
  induction n with
  | zero =>
    intro pos acc h
    unfold sbLoopConn
    have hge : ¬ pos < d.length := by omega
    simp [hge]
  | succ n ih =>
    intro pos acc h
    unfold sbLoopConn
    by_cases hlt : pos < d.length
    · simp only [hlt, if_true]
      by_cases hse : d.get? (pos + 1) = some SE
      · simp only [hse]
        simp
      · simp only [hse, if_false]
        have := ih (pos + 1) (acc ++ [d.getD pos 0]) (by omega)
        omega
    · simp [hlt]

theorem sbLoopIdx_pos_ge (d : List Nat) :
    ∀ n pos acc, d.length - pos ≤ n → pos ≤ (sbLoopIdx d pos acc).2 := by
  intro n
  induction n with
  | zero =>
    intro pos acc h
    unfold sbLoopIdx
    have hge : ¬ pos < d.length := by omega
    simp [hge]
  | succ n ih =>
    intro pos acc h
    unfold sbLoopIdx
    by_cases hlt : pos < d.length
    · simp only [hlt, if_true]
      by_cases hse : d.get? (pos + 1) = some SE
      · simp only [hse]
        simp
      · simp only [hse, if_false]
        have := ih (pos + 1) (acc ++ [d.getD pos 0]) (by omega)
        omega
    · simp [hlt]

/-- connection.ts handleTelnetCommand: start the command with IAC, advance
past the introducer, branch on SB; otherwise push up to two further bytes,
advancing the cursor past each (`data[position++]` twice).  The two
sequential guarded pushes of the source are flattened into nested ifs:
when the first guard fails the cursor has not moved, so the second guard
fails as well. -/
def handleTelnetCommandConn (d : List Nat) (cursor : Nat) : List Nat × Nat :=
  if d.get? (cursor + 1) = some SB then
    sbLoopConn d (cursor + 1) [IAC]
  else if cursor + 1 < d.length then
    if cursor + 2 < d.length then
      ([IAC, d.getD (cursor + 1) 0, d.getD (cursor + 2) 0], cursor + 3)
    else ([IAC, d.getD (cursor + 1) 0], cursor + 2)
  else ([IAC], cursor + 1)

/-- index.ts handleTelnetCommand: same shape, but in the simple branch the
second push does not advance the cursor (`telnetCommand.push(data[position])`
with no increment, so the returned position is the index of the pushed
byte), and in the SB branch the SE byte is pushed. -/
def handleTelnetCommandIdx (d : List Nat) (cursor : Nat) : List Nat × Nat :=
  if d.get? (cursor + 1) = some SB then
    sbLoopIdx d (cursor + 1) [IAC]
  else if cursor + 1 < d.length then
    if cursor + 2 < d.length then
      ([IAC, d.getD (cursor + 1) 0, d.getD (cursor + 2) 0], cursor + 2)
    else ([IAC, d.getD (cursor + 1) 0], cursor + 2)
  else ([IAC], cursor + 1)

theorem handleTelnetCommandConn_pos_ge (d : List Nat) (cursor : Nat) :
    cursor + 1 ≤ (handleTelnetCommandConn d cursor).2 := by
  unfold handleTelnetCommandConn
  by_cases hsb : d.get? (cursor + 1) = some SB
  · simp only [hsb, if_true]
    exact sbLoopConn_pos_ge d (d.length - (cursor + 1)) (cursor + 1) [IAC] le_rfl
  · simp only [hsb, if_false]
    by_cases h1 : cursor + 1 < d.length
    · by_cases h2 : cursor + 2 < d.length <;> simp [h1, h2]
    · simp [h1]

theorem handleTelnetCommandIdx_pos_ge (d : List Nat) (cursor : Nat) :
    cursor + 1 ≤ (handleTelnetCommandIdx d cursor).2 := by
  unfold handleTelnetCommandIdx
  by_cases hsb : d.get? (cursor + 1) = some SB
  · simp only [hsb, if_true]
    exact sbLoopIdx_pos_ge d (d.length - (cursor + 1)) (cursor + 1) [IAC] le_rfl
  · simp only [hsb, if_false]
    by_cases h1 : cursor + 1 < d.length
    · by_cases h2 : cursor + 2 < d.length <;> simp [h1, h2]
    · simp [h1]

/-- The data-event handler loop of connection.ts: walk the chunk; at an
IAC byte hand off to handleTelnetCommand (which enqueues the command
event) and resume one past the cursor it returns (the for-loop increment);
any other byte is copied into the payload buffer.  Returns the payload
bytes and the command events emitted during the scan, in emission order. -/
def scanLoopConn (d : List Nat) (cursor : Nat) (payload : List Nat)
    (emitted : List FramerEvent) : List Nat × List FramerEvent :=
  if cursor < d.length then
    if d.getD cursor 0 = IAC then
      scanLoopConn d ((handleTelnetCommandConn d cursor).2 + 1) payload
        (emitted ++ [.command (handleTelnetCommandConn d cursor).1])
    else
      scanLoopConn d (cursor + 1) (payload ++ [d.getD cursor 0]) emitted
  else (payload, emitted)
termination_by d.length - cursor
decreasing_by
  · have := handleTelnetCommandConn_pos_ge d cursor
    omega
  · omega

/-- The data-event handler loop of index.ts (same loop, index.ts framer). -/
def scanLoopIdx (d : List Nat) (cursor : Nat) (payload : List Nat)
    (emitted : List FramerEvent) : List Nat × List FramerEvent :=
  if cursor < d.length then
    if d.getD cursor 0 = IAC then
      scanLoopIdx d ((handleTelnetCommandIdx d cursor).2 + 1) payload
        (emitted ++ [.command (handleTelnetCommandIdx d cursor).1])
    else
      scanLoopIdx d (cursor + 1) (payload ++ [d.getD cursor 0]) emitted
  else (payload, emitted)
termination_by d.length - cursor
decreasing_by
  · have := handleTelnetCommandIdx_pos_ge d cursor
    omega
  · omega

/-- Payload bytes of one chunk under the connection.ts framer. -/
def payloadConn (d : List Nat) : List Nat := (scanLoopConn d 0 [] []).1

/-- Payload bytes of one chunk under the index.ts framer. -/
def payloadIdx (d : List Nat) : List Nat := (scanLoopIdx d 0 [] []).1

/-- All events the connection.ts data handler enqueues for one chunk, in
order: the command events found during the scan, then — after the whole
chunk has been scanned — exactly one data event carrying the payload
(`this.resolver.add({ type: "data", ... })` after the loop). -/
def dataHandlerEventsConn (d : List Nat) : List FramerEvent :=
  (scanLoopConn d 0 [] []).2 ++ [.data (scanLoopConn d 0 [] []).1]

/-- All events the index.ts data handler enqueues for one chunk. -/
def dataHandlerEventsIdx (d : List Nat) : List FramerEvent :=
  (scanLoopIdx d 0 [] []).2 ++ [.data (scanLoopIdx d 0 [] []).1]

/-! ### Connection lifecycle (src/src/connection.ts)

The constructor registers one handler per socket signal; every handler
enqueues one event through the EventResolver, and only the graceful
`end` handler additionally sets `connected := false` (the `close`
handler does not touch the flag).  `receive()` is the loop
`while (connected) yield await resolver.next()`.

The trace model below specialises the queue to the single-consumer
cooperative setting: every ConnectionEvent is a JavaScript object, hence
truthy, so the EventResolver never drops one.  `backlog` is the pending
event list, `waiting` records whether the receive loop is suspended
inside `next()` (its resolve function is registered), `done` records
that the generator has returned, and `yielded` logs the events the
receive loop has yielded, in order.  `connEnqueue` is `resolver.add`:
with a waiting consumer the event resolves it directly (and the loop
yields it); otherwise it joins the backlog.  `receivePull` is one
iteration of the receive loop: if the generator already returned nothing
happens; if `connected` is false the loop exits; otherwise a backlogged
event is shifted and yielded, or the consumer starts waiting. -/

inductive ConnEvent where
  | commandEv (bytes : List Nat)
  | dataEv (payload : List Nat)
  | errorEv
  | endEv (error : Option Bool)
  | drainEv
  | lookupEv
  | readyEv
  | timeoutEv
deriving DecidableEq

structure ConnState where
  connected : Bool
  backlog : List ConnEvent
  waiting : Bool
  done : Bool
  yielded : List ConnEvent
deriving DecidableEq

def connInit : ConnState := ⟨true, [], false, false, []⟩

def connEnqueue (e : ConnEvent) (s : ConnState) : ConnState :=
  if s.waiting then { s with waiting := false, yielded := s.yielded ++ [e] }
  else { s with backlog := s.backlog ++ [e] }

/-- `socket.on("close", (hasError) => resolver.add({type:"end", error:hasError}))`
— note: it does not change `connected`. -/
def closeHandler (hasError : Bool) (s : ConnState) : ConnState :=
  connEnqueue (.endEv (some hasError)) s

/-- `socket.on("end", ...)`: enqueue `{type:"end"}` (no error field), then
set `connected = false`. -/
def endHandler (s : ConnState) : ConnState :=
  let s' := connEnqueue (.endEv none) s
  { s' with connected := false }

def errorHandler (s : ConnState) : ConnState := connEnqueue .errorEv s

def drainHandler (s : ConnState) : ConnState := connEnqueue .drainEv s

def lookupHandler (s : ConnState) : ConnState := connEnqueue .lookupEv s

def readyHandler (s : ConnState) : ConnState := connEnqueue .readyEv s

def timeoutHandler (s : ConnState) : ConnState := connEnqueue .timeoutEv s

/-- Framer events as connection events. -/
def framerToConn : FramerEvent → ConnEvent
  | .command bs => .commandEv bs
  | .data p => .dataEv p

/-- The data handler: scan the chunk, enqueueing each command event as it
is found and one data event after the scan (connection.ts framer). -/
def dataHandler (chunk : List Nat) (s : ConnState) : ConnState :=
  ((dataHandlerEventsConn chunk).map framerToConn).foldl
    (fun t e => connEnqueue e t) s

/-- One iteration of `async *receive() { while (this.connected) { yield
await this.resolver.next(); } return; }`. -/
def receivePull (s : ConnState) : ConnState :=
  if s.done then s
  else if s.connected then
    match s.backlog with
    | e :: rest => { s with backlog := rest, yielded := s.yielded ++ [e] }
    | [] => { s with waiting := true }
  else { s with done := true }

/-! ### Server lifecycle (AbstractTelnetServer in src/src/server.ts)

Modelled from the spec: the server queue is the external
`@herrevilkitten/async-queue` AsyncQueue package, whose source is not in
this repository; per section 4.1 of the spec its contract is the
EventQueue contract (`add` hands the event to the oldest waiting consumer
or appends to the backlog; `next` pops the backlog or registers a
consumer), which the trace model below implements directly.  The
`listen()` loop, `connectionHandler` and `stop()` are embedded from
src/src/server.ts itself. -/

inductive ServerEvent where
  | startEv
  | connectEv (connection : Nat)
  | stopEv
  | serverErrorEv
deriving DecidableEq

structure ServState where
  connected : Bool
  backlog : List ServerEvent
  waiting : Bool
  done : Bool
  yielded : List ServerEvent
deriving DecidableEq

def servInit : ServState := ⟨true, [], false, false, []⟩

def servEnqueue (e : ServerEvent) (s : ServState) : ServState :=
  if s.waiting then { s with waiting := false, yielded := s.yielded ++ [e] }
  else { s with backlog := s.backlog ++ [e] }

/-- `connectionHandler(socket)`: wrap the socket in a TelnetConnection
(identified here by a numeric id) and enqueue a connect event. -/
def connectionHandler (conn : Nat) (s : ServState) : ServState :=
  servEnqueue (.connectEv conn) s

/-- `stop()`: set `connected = false`, then `resolver.add({type:"stop"})`. -/
def stopAct (s : ServState) : ServState :=
  servEnqueue .stopEv { s with connected := false }

/-- One iteration of the `listen()` loop after the start event:
`while (this.connected) { yield await this.resolver.next(); } return;`. -/
def listenPull (s : ServState) : ServState :=
  if s.done then s
  else if s.connected then
    match s.backlog with
    | e :: rest => { s with backlog := rest, yielded := s.yielded ++ [e] }
    | [] => { s with waiting := true }
  else { s with done := true }

/-! ### Send helpers -/

/-- Whether `send` writes through the socket, as a function of whether the
socket reference is set and whether the socket reports itself writable.
connection.ts: `if (!this.socket) { return; } this.socket.write(data);`. -/
def sendWritesConn (socketSet _writable : Bool) : Bool :=
  if !socketSet then false else true

/-- index.ts: `if (!this.socket || !this.socket.writable) { return; }
this.socket.write(data);`. -/
def sendWritesIdx (socketSet writable : Bool) : Bool :=
  if !socketSet || !writable then false else true

/-- `sendCommand(data)`: `if (data[0] !== Command.IAC) { data.unshift(Command.IAC); }`
— `unshift` mutates the array of the caller in place; this function
returns the content of that array after the call.  On an empty array
`data[0]` is `undefined`, which is `!== IAC`, so IAC is prepended. -/
def sendCommandArgAfter (data : List Nat) : List Nat :=
  if data.head? ≠ some IAC then IAC :: data else data

/-- The bytes written by `sendCommand`: `this.send(Uint8Array.from(data))`
copies the (by now possibly mutated) argument array. -/
def sendCommandWritten (data : List Nat) : List Nat :=
  sendCommandArgAfter data

/-! ### Claim theorems -/

/-- C2: The claim (and the connection.test.ts test expecting "helloworld")
holds of the index.ts framer, but the connection.ts framer violates it:
after a simple command its handleTelnetCommand advances the cursor past
the option byte (`data[position++]` on the second push) and returns that
position, which the enclosing for-loop increments once more, so the byte
immediately after the command (the "w" of "world") is silently dropped
from the payload.  On "hello" + IAC DO ECHO + "world" the connection.ts
data handler emits Command [IAC, DO, ECHO] and Data "helloorld" (a 9-byte
payload missing the "w"), while index.ts emits Data "helloworld" as the
claim, the spec and the test state.  Byte lists spell the ASCII strings. -/
theorem c2_conn_framer_drops_byte_after_simple_command :
    dataHandlerEventsConn
        [104, 101, 108, 108, 111, 255, 253, 1, 119, 111, 114, 108, 100]
      = [.command [IAC, DO, ECHO],
         .data [104, 101, 108, 108, 111, 111, 114, 108, 100]] ∧
    dataHandlerEventsIdx
        [104, 101, 108, 108, 111, 255, 253, 1, 119, 111, 114, 108, 100]
      = [.command [IAC, DO, ECHO],
         .data [104, 101, 108, 108, 111, 119, 111, 114, 108, 100]] := by
  constructor <;>
    simp [dataHandlerEventsConn, dataHandlerEventsIdx, scanLoopConn,
      scanLoopIdx, handleTelnetCommandConn, handleTelnetCommandIdx,
      sbLoopConn, sbLoopIdx, IAC, SB, SE, DO, ECHO]

/-- C3 counterexample: the connection.ts framer breaks out of the SB loop
without pushing the SE byte, so on the chunk IAC SB 1 2 IAC SE the single
Command event is [IAC, SB, 1, 2, IAC] — it does not extend through the
terminating SE marker (240), refuting the claim as stated for this cited
variant. -/
theorem c3_conn_command_excludes_se :
    dataHandlerEventsConn [255, 250, 1, 2, 255, 240]
      = [.command [255, 250, 1, 2, 255], .data []] ∧
    ([255, 250, 1, 2, 255] : List Nat).getLast? ≠ some SE := by
  refine ⟨?_, by decide⟩
  simp [dataHandlerEventsConn, scanLoopConn, handleTelnetCommandConn,
    sbLoopConn, IAC, SB, SE]

/-- Test for the data event among framer events. -/
def isDataEvent : FramerEvent → Bool
  | .data _ => true
  | .command _ => false

theorem scanLoopConn_no_data (d : List Nat) :
    ∀ n cursor payload emitted, d.length - cursor ≤ n →
      ((scanLoopConn d cursor payload emitted).2).countP isDataEvent
        = emitted.countP isDataEvent := by
  intro n
  induction n with
  | zero =>
    intro cursor payload emitted h
    unfold scanLoopConn
    have hge : ¬ cursor < d.length := by omega
    simp [hge]
  | succ n ih =>
    intro cursor payload emitted h
    unfold scanLoopConn
    by_cases hlt : cursor < d.length
    · simp only [hlt, if_true]
      by_cases hiac : d.getD cursor 0 = IAC
      · simp only [hiac, if_true]
        have hge := handleTelnetCommandConn_pos_ge d cursor
        have hrec := ih ((handleTelnetCommandConn d cursor).2 + 1) payload
          (emitted ++ [FramerEvent.command (handleTelnetCommandConn d cursor).1])
          (by omega)
        rw [hrec, List.countP_append]
        simp [isDataEvent, List.countP, List.countP.go]
      · simp only [hiac, if_false]
        exact ih _ _ _ (by omega)
    · simp [hlt]

/-- C6: for every input chunk, the connection.ts data handler enqueues
exactly one Data event, and it is enqueued after every Command event
discovered in the chunk: the commands are added as the scan finds them
and the payload is added as the final event, once the whole chunk has
been scanned. -/
theorem c6_one_data_event_last (d : List Nat) :
    (dataHandlerEventsConn d).countP isDataEvent = 1 ∧
    (dataHandlerEventsConn d).getLast? = some (.data (payloadConn d)) := by
  constructor
  · unfold dataHandlerEventsConn
    rw [List.countP_append,
      scanLoopConn_no_data d d.length 0 [] [] (by omega)]
    simp [isDataEvent, List.countP, List.countP.go]
  · exact List.getLast?_concat _

/-- C8 counterexample: on a chunk consisting solely of a command, both
framers still enqueue a Data event with an empty payload, refuting the
claim that the framer never emits empty-payload Data events. -/
theorem c8_empty_data_event_emitted :
    dataHandlerEventsConn [255, 253, 1] = [.command [255, 253, 1], .data []] ∧
    dataHandlerEventsIdx [255, 253, 1] = [.command [255, 253, 1], .data []] := by
  constructor <;>
    simp [dataHandlerEventsConn, dataHandlerEventsIdx, scanLoopConn,
      scanLoopIdx, handleTelnetCommandConn, handleTelnetCommandIdx,
      sbLoopConn, sbLoopIdx, IAC, SB, SE]

/-- C8 amended: the framer enqueues a Data event for every chunk, even
when the whole chunk was consumed by commands and the payload is empty —
the `resolver.add({type:"data", ...})` after the scan loop is
unconditional in both variants. -/
theorem c8_amended_data_event_even_when_empty (d : List Nat)
    (hConn : payloadConn d = []) (hIdx : payloadIdx d = []) :
    FramerEvent.data [] ∈ dataHandlerEventsConn d ∧
    FramerEvent.data [] ∈ dataHandlerEventsIdx d := by
  constructor
  · unfold dataHandlerEventsConn
    rw [show (scanLoopConn d 0 [] []).1 = payloadConn d from rfl, hConn]
    simp
  · unfold dataHandlerEventsIdx
    rw [show (scanLoopIdx d 0 [] []).1 = payloadIdx d from rfl, hIdx]
    simp

/-- C8 amended witness: the chunk IAC DO ECHO has an empty payload and
still produces a Data event in both variants. -/
theorem c8_amended_witness :
    FramerEvent.data [] ∈ dataHandlerEventsConn [255, 253, 1] ∧
    FramerEvent.data [] ∈ dataHandlerEventsIdx [255, 253, 1] :=
  c8_amended_data_event_even_when_empty [255, 253, 1]
    (by simp [payloadConn, scanLoopConn, handleTelnetCommandConn,
          sbLoopConn, IAC, SB, SE])
    (by simp [payloadIdx, scanLoopIdx, handleTelnetCommandIdx,
          sbLoopIdx, IAC, SB, SE])

/-- C7 counterexample: the connection.ts send checks only that the socket
reference is set, not that the socket is writable, so with a set but
non-writable socket it writes anyway — the claimed "writes iff writable"
is refuted for that cited variant (index.ts does drop the write). -/
theorem c7_conn_send_ignores_writable :
    sendWritesConn true false = true ∧ sendWritesIdx true false = false := by
  decide

/-- C7 amended: the index.ts send writes exactly when the socket reference
is set and the socket reports itself writable (silently dropping the
write otherwise, with no error raised); the connection.ts send writes
exactly when the socket reference is set, never consulting writability. -/
theorem c7_amended_send_semantics (socketSet writable : Bool) :
    sendWritesIdx socketSet writable = (socketSet && writable) ∧
    sendWritesConn socketSet writable = socketSet := by
  cases socketSet <;> cases writable <;> decide

/-- C9 counterexample: on the argument [IAC, IAC] the written bytes are
[IAC, IAC]: the first element is already IAC so nothing is prepended, and
the written sequence begins with two introducer bytes, not exactly one. -/
theorem c9_double_iac_written :
    sendCommandWritten [IAC, IAC] = [IAC, IAC] ∧
    (sendCommandWritten [IAC, IAC]).get? 1 = some IAC := by
  decide

/-- C9 amended: if the first element is not IAC the written bytes are IAC
followed by the given codes; if the first element is IAC the written
bytes are exactly the given codes; in both cases the written sequence
begins with an introducer byte (at least one — an argument that already
begins with several IACs is written unchanged). -/
theorem c9_amended_sendCommand_written (data : List Nat) :
    (data.head? ≠ some IAC → sendCommandWritten data = IAC :: data) ∧
    (data.head? = some IAC → sendCommandWritten data = data) ∧
    (sendCommandWritten data).head? = some IAC := by
  unfold sendCommandWritten sendCommandArgAfter
  by_cases h : data.head? = some IAC
  · refine ⟨fun hne => absurd h hne, fun _ => by simp [h], by simp [h]⟩
  · refine ⟨fun _ => by simp [h], fun heq => absurd heq h, by simp [h]⟩

/-- C9 amended witness: sendCommand([DO, ECHO]) writes [IAC, DO, ECHO]
and sendCommand([IAC, DO, ECHO]) writes the same bytes unchanged. -/
theorem c9_amended_witness :
    sendCommandWritten [DO, ECHO] = [IAC, DO, ECHO] ∧
    sendCommandWritten [IAC, DO, ECHO] = [IAC, DO, ECHO] :=
  ⟨(c9_amended_sendCommand_written [DO, ECHO]).1 (by decide),
   (c9_amended_sendCommand_written [IAC, DO, ECHO]).2.1 (by decide)⟩

/-- C10: sendCommand mutates its argument in place through
`data.unshift(Command.IAC)`: when the first element is not IAC the
content of the array of the caller afterwards is IAC prepended to the
original elements (one longer); when the first element is already IAC
the array is left unchanged. -/
theorem c10_sendCommand_mutates_argument (data : List Nat) :
    (data.head? ≠ some IAC →
      sendCommandArgAfter data = IAC :: data ∧
      (sendCommandArgAfter data).length = data.length + 1) ∧
    (data.head? = some IAC → sendCommandArgAfter data = data) := by
  unfold sendCommandArgAfter
  by_cases h : data.head? = some IAC <;> simp [h]

/-- C10 witness: [WILL, WINDOW_SIZE] gains a leading IAC (length 2 to 3);
[IAC, IP] is left unchanged. -/
theorem c10_witness :
    sendCommandArgAfter [251, 31] = [255, 251, 31] ∧
    sendCommandArgAfter [255, 244] = [255, 244] :=
  ⟨((c10_sendCommand_mutates_argument [251, 31]).1 (by decide)).1,
   (c10_sendCommand_mutates_argument [255, 244]).2 (by decide)⟩

/-- C4 counterexample: after the close signal fires with the error flag,
the connection yields End{abnormal:true} — but the close handler never
flips `connected`, so the receive loop keeps running and yields events
enqueued after the terminal event (here a ready event), refuting the
claim that no further events are yielded. -/
theorem c4_events_yielded_after_abnormal_end :
    (receivePull (readyHandler (receivePull (closeHandler true connInit)))).yielded
      = [.endEv (some true), .readyEv] ∧
    (closeHandler true connInit).connected = true := by
  decide

/-- C4 amended: when the close signal fires with the error flag on a
connection whose queue is empty (and whose consumer is not mid-wait), the
next pulled event is End{abnormal:true}; but the close handler leaves
`connected` untouched (only the graceful end handler clears it), so the
receive sequence does not terminate: any event enqueued afterwards is
yielded by the following pull. -/
theorem c4_amended_close_enqueues_end_without_disconnect (s : ConnState)
    (hc : s.connected = true) (hb : s.backlog = []) (hw : s.waiting = false)
    (hd : s.done = false) (e : ConnEvent) :
    (closeHandler true s).connected = true ∧
    (receivePull (closeHandler true s)).yielded
      = s.yielded ++ [.endEv (some true)] ∧
    (receivePull (connEnqueue e (receivePull (closeHandler true s)))).yielded
      = s.yielded ++ [.endEv (some true), e] := by
  cases s with
  | mk c b w d y =>
    simp only at hc hb hw hd
    subst hc
    subst hb
    subst hw
    subst hd
    simp [closeHandler, connEnqueue, receivePull]

/-- C4 amended witness: instantiated on a freshly constructed connection
and a ready event. -/
theorem c4_amended_witness :
    (closeHandler true connInit).connected = true ∧
    (receivePull (closeHandler true connInit)).yielded
      = [ConnEvent.endEv (some true)] ∧
    (receivePull (connEnqueue .readyEv (receivePull (closeHandler true connInit)))).yielded
      = [ConnEvent.endEv (some true), .readyEv] :=
  c4_amended_close_enqueues_end_without_disconnect connInit rfl rfl rfl rfl
    .readyEv

/-- C5 counterexample: a connect event sits in the backlog when stop() is
called; stop() clears `connected` before enqueueing the stop event, so
the next pull of listen() exits the loop immediately: the sequence
terminates yielding neither the earlier connect event nor the stop event,
although both are in the queue — refuting the claim that every event
enqueued before stop() is yielded, followed by the stop event. -/
theorem c5_stop_discards_backlog :
    (listenPull (stopAct (connectionHandler 0 servInit))).yielded = [] ∧
    (listenPull (stopAct (connectionHandler 0 servInit))).done = true ∧
    (stopAct (connectionHandler 0 servInit)).backlog
      = [.connectEv 0, .stopEv] := by
  decide

/-- C5 amended: stop() clears `connected` and then enqueues one stop
event.  If the listen() consumer is blocked inside next() on an empty
queue, the stop event resolves it at once: the sequence yields exactly
the stop event, the following pull terminates it, and connect events
delivered afterwards are never yielded.  If instead the consumer is not
waiting, the stop event joins the backlog behind any earlier events and
the next pull terminates the sequence without yielding any of them. -/
theorem c5_amended_stop_semantics (s : ServState) (c : Nat)
    (hc : s.connected = true) (hd : s.done = false) :
    (s.waiting = true → s.backlog = [] →
      (stopAct s).yielded = s.yielded ++ [.stopEv] ∧
      (listenPull (stopAct s)).done = true ∧
      (listenPull (stopAct s)).yielded = s.yielded ++ [.stopEv] ∧
      (listenPull (connectionHandler c (listenPull (stopAct s)))).yielded
        = s.yielded ++ [.stopEv]) ∧
    (s.waiting = false →
      (stopAct s).backlog = s.backlog ++ [.stopEv] ∧
      (stopAct s).yielded = s.yielded ∧
      (listenPull (stopAct s)).done = true ∧
      (listenPull (stopAct s)).yielded = s.yielded) := by
  cases s with
  | mk sc b w d y =>
    simp only at hc hd
    subst hc
    subst hd
    constructor
    · intro hw hb
      simp only at hw hb
      subst hw
      subst hb
      simp [stopAct, servEnqueue, listenPull, connectionHandler]
    · intro hw
      simp only at hw
      subst hw
      simp [stopAct, servEnqueue, listenPull]

/-- C5 amended witness: a server whose consumer is waiting on an empty
queue yields exactly the stop event and terminates. -/
theorem c5_amended_witness :
    (stopAct (⟨true, [], true, false, []⟩ : ServState)).yielded
      = [ServerEvent.stopEv] ∧
    (listenPull (stopAct (⟨true, [], true, false, []⟩ : ServState))).done
      = true :=
  let h := (c5_amended_stop_semantics ⟨true, [], true, false, []⟩ 7 rfl rfl).1
    rfl rfl
  ⟨h.1, h.2.1⟩

/-! ### C3 amended: the index.ts subnegotiation command spans IAC..SE -/

/-- Index of the first SE byte at position `q` or later, if any. -/
def findSEFrom (d : List Nat) (q : Nat) : Option Nat :=
  if q < d.length then
    if d.getD q 0 = SE then some q else findSEFrom d (q + 1)
  else none
termination_by d.length - q
decreasing_by omega

theorem findSEFrom_some (d : List Nat) :
    ∀ n i q, d.length - i ≤ n → findSEFrom d i = some q →
      i ≤ q ∧ q < d.length ∧ d.getD q 0 = SE := by
  intro n
  induction n with
  | zero =>
    intro i q h hfind
    unfold findSEFrom at hfind
    have hge : ¬ i < d.length := by omega
    simp [hge] at hfind
  | succ n ih =>
    intro i q h hfind
    unfold findSEFrom at hfind
    by_cases hlt : i < d.length
    · simp only [hlt, if_true] at hfind
      by_cases hse : d.getD i 0 = SE
      · simp only [hse, if_true, Option.some.injEq] at hfind
        subst hfind
        exact ⟨le_rfl, hlt, hse⟩
      · simp only [hse, if_false] at hfind
        have := ih (i + 1) q (by omega) hfind
        exact ⟨by omega, this.2.1, this.2.2⟩
    · simp [hlt] at hfind

/-- The index.ts SB loop, characterised: started at `pos` (the SB byte)
with the first SE byte at position `q` past `pos`, it returns the slice
of the chunk from `pos` through `q` inclusive appended to the
accumulator, with the cursor left on the SE byte. -/
theorem sbLoopIdx_spec (d : List Nat) :
    ∀ n pos acc q, d.length - pos ≤ n → pos < d.length →
      findSEFrom d (pos + 1) = some q →
      sbLoopIdx d pos acc = (acc ++ (d.drop pos).take (q + 1 - pos), q) := by
  intro n
  induction n with
  | zero =>
    intro pos acc q h hpos hfind
    omega
  | succ n ih =>
    intro pos acc q h hpos hfind
    have hgdpos : d.getD pos 0 = d[pos] := by
      rw [List.getD_eq_getElem?_getD, List.getElem?_eq_getElem hpos]
      rfl
    have hdrop : d.drop pos = d[pos] :: d.drop (pos + 1) :=
      List.drop_eq_getElem_cons hpos
    unfold sbLoopIdx
    simp only [hpos, if_true]
    by_cases hse : d.get? (pos + 1) = some SE
    · simp only [hse, if_true]
      have hlt1 : pos + 1 < d.length := by
        rw [List.get?_eq_getElem?] at hse
        exact (List.getElem?_eq_some.mp hse).1
      have hgdpos1 : d.getD (pos + 1) 0 = d[pos + 1] := by
        rw [List.getD_eq_getElem?_getD, List.getElem?_eq_getElem hlt1]
        rfl
      have hgd1 : d.getD (pos + 1) 0 = SE := by
        rw [hgdpos1]
        rw [List.get?_eq_getElem?, List.getElem?_eq_getElem hlt1] at hse
        exact Option.some.inj hse
      have hq : q = pos + 1 := by
        unfold findSEFrom at hfind
        simp only [hlt1, if_true, hgd1, if_true, Option.some.injEq] at hfind
        omega
      subst hq
      have hdrop1 : d.drop (pos + 1) = d[pos + 1] :: d.drop (pos + 2) :=
        List.drop_eq_getElem_cons hlt1
      have harith : pos + 1 + 1 - pos = 2 := by omega
      rw [hgdpos, hgdpos1, hdrop, hdrop1, harith]
      rfl
    · simp only [hse, if_false]
      have hstep : findSEFrom d (pos + 2) = some q ∧ pos + 1 < d.length := by
        unfold findSEFrom at hfind
        by_cases hlt1 : pos + 1 < d.length
        · simp only [hlt1, if_true] at hfind
          by_cases hgd : d.getD (pos + 1) 0 = SE
          · exfalso
            apply hse
            have hgdpos1 : d.getD (pos + 1) 0 = d[pos + 1] := by
              rw [List.getD_eq_getElem?_getD, List.getElem?_eq_getElem hlt1]
              rfl
            rw [List.get?_eq_getElem?, List.getElem?_eq_getElem hlt1,
              ← hgdpos1, hgd]
          · simp only [hgd, if_false] at hfind
            exact ⟨hfind, hlt1⟩
        · simp [hlt1] at hfind
      have hq2 := findSEFrom_some d (d.length - (pos + 2)) (pos + 2) q le_rfl
        hstep.1
      have hrec := ih (pos + 1) (acc ++ [d.getD pos 0]) q (by omega) hstep.2
        hstep.1
      rw [hrec, hgdpos, hdrop]
      have harith : q + 1 - pos = (q + 1 - (pos + 1)) + 1 := by omega
      rw [harith, List.take_succ_cons]
      simp

theorem getLast?_take_drop (d : List Nat) (i k : Nat) (h1 : 0 < k)
    (h2 : i + k ≤ d.length) :
    ((d.drop i).take k).getLast? = d.get? (i + k - 1) := by
  have hlen : ((d.drop i).take k).length = k := by
    simp [List.length_take, List.length_drop]
    omega
  rw [List.getLast?_eq_getElem? _, hlen]
  rw [List.getElem?_take]
  have hk : k - 1 < k := by omega
  simp only [hk, if_true]
  rw [List.getElem?_drop, List.get?_eq_getElem?]
  congr 1
  omega

/-- C3 amended: when the index.ts framer encounters an IAC introducing a
subnegotiation (SB follows) and an SE byte exists at some position q at
least two past the introducer, the emitted command is exactly the chunk
slice from the introducer through the first such SE inclusive: it begins
with IAC and its last byte is SE (240).  (The connection.ts variant
instead stops just before the SE; see the counterexample.)  The claim is
amended only in that "through and including SE" holds for the index.ts
variant, not for the connection.ts variant. -/
theorem c3_amended_idx_command_spans_through_se (d : List Nat) (p q : Nat)
    (hSB : d.get? (p + 1) = some SB)
    (hSE : findSEFrom d (p + 2) = some q) :
    (handleTelnetCommandIdx d p).1
      = IAC :: (d.drop (p + 1)).take (q - p) ∧
    (handleTelnetCommandIdx d p).1.getLast? = some SE ∧
    (handleTelnetCommandIdx d p).1.head? = some IAC := by
  have hlt1 : p + 1 < d.length := by
    rw [List.get?_eq_getElem?] at hSB
    exact (List.getElem?_eq_some.mp hSB).1
  have hq := findSEFrom_some d (d.length - (p + 2)) (p + 2) q le_rfl hSE
  have hspec := sbLoopIdx_spec d (d.length - (p + 1)) (p + 1) [IAC] q le_rfl
    hlt1 hSE
  have hhandle : handleTelnetCommandIdx d p = sbLoopIdx d (p + 1) [IAC] := by
    unfold handleTelnetCommandIdx
    rw [if_pos hSB]
  have harith : q + 1 - (p + 1) = q - p := by omega
  have hcmd : (handleTelnetCommandIdx d p).1
      = IAC :: (d.drop (p + 1)).take (q - p) := by
    rw [hhandle, hspec, harith]
    rfl
  refine ⟨hcmd, ?_, by rw [hcmd]; rfl⟩
  rw [hcmd]
  have hlast : ((d.drop (p + 1)).take (q - p)).getLast?
      = d.get? (p + 1 + (q - p) - 1) :=
    getLast?_take_drop d (p + 1) (q - p) (by omega) (by omega)
  have htail_len : ((d.drop (p + 1)).take (q - p)).length = q - p := by
    simp [List.length_take, List.length_drop]
    omega
  have htail_ne : (d.drop (p + 1)).take (q - p) ≠ [] := by
    intro hnil
    rw [hnil] at htail_len
    simp at htail_len
    omega
  have hcons : (IAC :: (d.drop (p + 1)).take (q - p))
      = [IAC] ++ (d.drop (p + 1)).take (q - p) := rfl
  rw [hcons, List.getLast?_append_of_ne_nil _ htail_ne, hlast]
  have harith2 : p + 1 + (q - p) - 1 = q := by omega
  rw [harith2]
  have hse := hq.2.2
  rw [List.getD_eq_getElem?_getD, List.getElem?_eq_getElem hq.2.1] at hse
  rw [List.get?_eq_getElem?, List.getElem?_eq_getElem hq.2.1]
  simpa using hse

/-- C3 amended witness: on the chunk IAC SB 1 IAC SE the index.ts framer
produces the command [IAC, SB, 1, IAC, SE], beginning with IAC and ending
with SE. -/
theorem c3_amended_witness :
    (handleTelnetCommandIdx [255, 250, 1, 255, 240] 0).1
      = IAC :: (([255, 250, 1, 255, 240] : List Nat).drop 1).take 4 ∧
    (handleTelnetCommandIdx [255, 250, 1, 255, 240] 0).1.getLast? = some SE ∧
    (handleTelnetCommandIdx [255, 250, 1, 255, 240] 0).1.head? = some IAC :=
  c3_amended_idx_command_spans_through_se [255, 250, 1, 255, 240] 0 4
    (by decide) (by simp [findSEFrom, SE])

end TelnetGen
